import Mathlib

/-!
Verification of the `jmp` message codec and its socket adapter
(`src/index.js`), via a shallow embedding.

Modelling conventions:

* A wire frame is a `String` (the JS code only ever observes frames through
  `part.toString()` and byte-wise HMAC updates, and encode emits strings).
* The external collaborators are modelled as follows:
  - `JSON.stringify` / `JSON.parse` (Node built-ins) are modelled by an
    executable serializer and recursive-descent parser over a JSON value
    type `Json` (null, booleans, strings, arrays, objects); the codec treats
    the four body sections opaquely through this pair.
  - `crypto.createHmac(...).update(...).digest("hex")` is modelled by
    `hmacHex`, an unspecified-but-deterministic executable function of the
    scheme, the key and the updated data frames, which is all the codec's
    claims depend on.
  - `uuid.v4()` is modelled by an explicit fresh-identifier parameter.
* JS exceptions (accessing `undefined[...].toString()`, `hmac.update(undefined)`,
  `JSON.parse` failure) are modelled by a `.threw` outcome; an early `return`
  after a `console.error` diagnostic is an `.aborted*` outcome.
-/

/-- The wire delimiter literal (`var DELIMITER = '<IDS|MSG>'`). -/
def DELIMITER : String := "<IDS|MSG>"

/-- JSON values, the payloads of the four body sections.  (Numbers are not
needed by any claim and are omitted from the model.) -/
inductive Json where
  | null : Json
  | bool : Bool → Json
  | str : String → Json
  | arr : List Json → Json
  | obj : List (String × Json) → Json
deriving Repr

/-- The serialized forms of the three JSON keyword literals. -/
def nullChars : List Char := ['n', 'u', 'l', 'l']

def trueChars : List Char := ['t', 'r', 'u', 'e']

def falseChars : List Char := ['f', 'a', 'l', 's', 'e']

/-- JSON string escaping for the two characters that would break the quoting. -/
def escapeChar (c : Char) : List Char :=
  if c = '"' ∨ c = '\\' then ['\\', c] else [c]

def escapeStr : List Char → List Char
  | [] => []
  | c :: cs => escapeChar c ++ escapeStr cs

mutual

/-- Model of `JSON.stringify` on a `Json` value, as a character list. -/
def stringifyJ : Json → List Char
  | .null => nullChars
  | .bool true => trueChars
  | .bool false => falseChars
  | .str s => '"' :: (escapeStr s.data ++ ['"'])
  | .arr xs => '[' :: stringifyA xs
  | .obj ms => '{' :: stringifyO ms

/-- Everything of an array after the opening bracket. -/
def stringifyA : List Json → List Char
  | [] => [']']
  | x :: xs => stringifyJ x ++ stringifyATail xs

/-- The remaining elements of an array, each preceded by a comma. -/
def stringifyATail : List Json → List Char
  | [] => [']']
  | x :: xs => ',' :: (stringifyJ x ++ stringifyATail xs)

/-- Everything of an object after the opening brace. -/
def stringifyO : List (String × Json) → List Char
  | [] => ['}']
  | m :: ms => stringifyMember m ++ stringifyOTail ms

/-- The remaining members of an object, each preceded by a comma. -/
def stringifyOTail : List (String × Json) → List Char
  | [] => ['}']
  | m :: ms => ',' :: (stringifyMember m ++ stringifyOTail ms)

/-- One `"key":value` object member. -/
def stringifyMember : String × Json → List Char
  | (k, v) => '"' :: (escapeStr k.data ++ ['"', ':']) ++ stringifyJ v

end

/-- Model of `JSON.stringify` producing a `String` frame. -/
def Json.stringify (j : Json) : String := String.mk (stringifyJ j)

/-- Parse the body of a JSON string literal after the opening quote, returning
the unescaped characters and the remaining input past the closing quote. -/
def parseStrBody : List Char → Option (List Char × List Char)
  | [] => none
  | c :: cs =>
    if c = '\\' then
      match cs with
      | [] => none
      | d :: ds =>
        match parseStrBody ds with
        | none => none
        | some (s, r) => some (d :: s, r)
    else if c = '"' then some ([], cs)
    else
      match parseStrBody cs with
      | none => none
      | some (s, r) => some (c :: s, r)

/-- Remaining elements of an array after a parsed element: a close bracket or
comma-separated further elements.  `pv` parses one value; the fuel bounds the
number of elements. -/
def parseATailG (pv : List Char → Option (Json × List Char)) :
    Nat → List Char → Option (List Json × List Char)
  | _, [] => none
  | fuel, c :: cs =>
    if c = ']' then some ([], cs)
    else if c = ',' then
      match fuel with
      | 0 => none
      | fuel2 + 1 =>
        match pv cs with
        | none => none
        | some (j, r) =>
          match parseATailG pv fuel2 r with
          | none => none
          | some (js, r2) => some (j :: js, r2)
    else none

/-- An array body after the opening bracket. -/
def parseArrG (pv : List Char → Option (Json × List Char)) (fuel : Nat) :
    List Char → Option (Json × List Char)
  | [] => none
  | c :: cs =>
    if c = ']' then some (Json.arr [], cs)
    else
      match fuel with
      | 0 => none
      | fuel2 + 1 =>
        match pv (c :: cs) with
        | none => none
        | some (j, r) =>
          match parseATailG pv fuel2 r with
          | none => none
          | some (js, r2) => some (Json.arr (j :: js), r2)

/-- One `"key":value` member. -/
def parseMemberG (pv : List Char → Option (Json × List Char)) :
    List Char → Option ((String × Json) × List Char)
  | '"' :: rest =>
    (match parseStrBody rest with
     | none => none
     | some (k, r) =>
       match r with
       | ':' :: r2 =>
         (match pv r2 with
          | none => none
          | some (j, r3) => some ((String.mk k, j), r3))
       | _ => none)
  | _ => none

/-- Remaining members of an object after a parsed member. -/
def parseOTailG (pv : List Char → Option (Json × List Char)) :
    Nat → List Char → Option (List (String × Json) × List Char)
  | _, [] => none
  | fuel, c :: cs =>
    if c = '}' then some ([], cs)
    else if c = ',' then
      match fuel with
      | 0 => none
      | fuel2 + 1 =>
        match parseMemberG pv cs with
        | none => none
        | some (m, r) =>
          match parseOTailG pv fuel2 r with
          | none => none
          | some (ms, r2) => some (m :: ms, r2)
    else none

/-- An object body after the opening brace. -/
def parseObjG (pv : List Char → Option (Json × List Char)) (fuel : Nat) :
    List Char → Option (Json × List Char)
  | [] => none
  | c :: cs =>
    if c = '}' then some (Json.obj [], cs)
    else
      match fuel with
      | 0 => none
      | fuel2 + 1 =>
        match parseMemberG pv (c :: cs) with
        | none => none
        | some (m, r) =>
          match parseOTailG pv fuel2 r with
          | none => none
          | some (ms, r2) => some (Json.obj (m :: ms), r2)

/-- One JSON value (fuel bounds recursion). -/
def parseVal : Nat → List Char → Option (Json × List Char)
  | 0, _ => none
  | fuel + 1, cs =>
    match cs with
    | 'n' :: 'u' :: 'l' :: 'l' :: rest => some (Json.null, rest)
    | 't' :: 'r' :: 'u' :: 'e' :: rest => some (Json.bool true, rest)
    | 'f' :: 'a' :: 'l' :: 's' :: 'e' :: rest => some (Json.bool false, rest)
    | '"' :: rest =>
      (match parseStrBody rest with
       | none => none
       | some (s, r) => some (Json.str (String.mk s), r))
    | '[' :: rest => parseArrG (parseVal fuel) fuel rest
    | '{' :: rest => parseObjG (parseVal fuel) fuel rest
    | _ => none

/-- Model of `JSON.parse` on a frame: parse one value consuming the whole
input, `none` modelling a thrown `SyntaxError`. -/
def Json.parse (s : String) : Option Json :=
  match parseVal s.length s.data with
  | some (j, []) => some j
  | _ => none

/-! ### Round trip of the JSON model: `Json.parse (Json.stringify j) = some j` -/

mutual

/-- Fuel measure: an upper bound on the parser fuel consumed on `stringifyJ j`. -/
def sizeJ : Json → Nat
  | .null => 1
  | .bool _ => 1
  | .str _ => 1
  | .arr xs => sizeA xs + 1
  | .obj ms => sizeO ms + 1

def sizeA : List Json → Nat
  | [] => 0
  | x :: xs => sizeJ x + sizeA xs + 1

def sizeO : List (String × Json) → Nat
  | [] => 0
  | m :: ms => sizeJ m.2 + sizeO ms + 1

end

/-! ### The `Message` codec (`Message`, `Message.prototype._decode`,
`Message.prototype._encode` of `src/index.js`) -/

/-- Model of Node's `crypto.createHmac(scheme, key)` with `update` calls on
`data` (in order) followed by `digest("hex")`: an unspecified but
deterministic executable digest function, which is the only property of the
HMAC that the codec relies on. -/
def hmacHex (scheme key : String) (data : List String) : String :=
  "hmac:" ++ scheme ++ ":" ++ key ++ ":" ++ String.intercalate "|" data

/-- A Jupyter message (`function Message(properties)`, lines 73-112): ZMQ
identities, four JSON sections, trailing blobs and the tri-state signature
flag (`null` when never checked). -/
structure Message where
  idents : List String
  header : Json
  parentHeader : Json
  metadata : Json
  content : Json
  blobs : List String
  signatureOK : Option Bool

/-- `new Message()`: all mapping fields are empty objects, the sequences are
empty, `signatureOK` is `null`. -/
def freshMessage : Message :=
  ⟨[], Json.obj [], Json.obj [], Json.obj [], Json.obj [], [], none⟩

/-- How one `_decode` call ended.  The three `aborted*` outcomes are the early
`return`s after a `console.error` diagnostic (lines 173-178, 179-184,
197-205); `threw` models a JS exception escaping `_decode`
(`undefined` frame access or a `JSON.parse` failure); `completed` is a full
decode. -/
inductive DStatus where
  | completed : DStatus
  | abortedFrames : DStatus
  | abortedDelim : DStatus
  | abortedSig : DStatus
  | threw : DStatus
deriving DecidableEq, Repr

/-- Result of a `_decode` call: the message state when `_decode` returned (or
when the exception escaped), the outcome, and effect counters: how many
`JSON.parse` calls were performed and whether an HMAC digest was computed. -/
structure DecodeResult where
  msg : Message
  status : DStatus
  jsonParses : Nat
  hmacComputed : Bool

/-- Index of the first frame whose string form equals the delimiter literal
(the scan loop of lines 164-172); equals `frames.length` when there is none. -/
def delimIndex (frames : List String) : Nat :=
  List.findIdx (fun part => part == DELIMITER) frames

/-- The body-parsing tail of `_decode` (lines 208-212): parse header (i+2),
parent header (i+3), then content (i+5) *before* metadata (i+4), finally
capture the blobs (i+6 onward).  Each successful `JSON.parse` assigns its
field; a failed parse (or `messageFrames[i+5]` being `undefined`, whose
`toString()` throws before any parse) leaves the remaining fields untouched
and throws. -/
def parseBody (m : Message) (frames : List String) (i : Nat) (hm : Bool) :
    DecodeResult :=
  match frames.get? (i + 2) with
  | none => ⟨m, DStatus.threw, 0, hm⟩
  | some f2 =>
    match Json.parse f2 with
    | none => ⟨m, DStatus.threw, 1, hm⟩
    | some h =>
      let m := { m with header := h }
      match frames.get? (i + 3) with
      | none => ⟨m, DStatus.threw, 1, hm⟩
      | some f3 =>
        match Json.parse f3 with
        | none => ⟨m, DStatus.threw, 2, hm⟩
        | some p =>
          let m := { m with parentHeader := p }
          match frames.get? (i + 5) with
          | none => ⟨m, DStatus.threw, 2, hm⟩
          | some f5 =>
            match Json.parse f5 with
            | none => ⟨m, DStatus.threw, 3, hm⟩
            | some c =>
              let m := { m with content := c }
              match frames.get? (i + 4) with
              | none => ⟨m, DStatus.threw, 3, hm⟩
              | some f4 =>
                match Json.parse f4 with
                | none => ⟨m, DStatus.threw, 4, hm⟩
                | some md =>
                  ⟨{ m with metadata := md, blobs := frames.drop (i + 6) },
                    DStatus.completed, 4, hm⟩

/-- Model of `Message.prototype._decode(messageFrames, scheme, key)`
(lines 160-217).  `scheme = scheme || "sha256"`, `key = key || ""`; idents
are the frames before the first delimiter; fewer than 5 frames from the
delimiter on aborts with the frame-count diagnostic; the (dead) delimiter
check follows; with a truthy key the HMAC over frames i+2..i+5 is compared
with frame i+1 (`hmac.update(messageFrames[i+5])` throws when that frame is
absent), recording the comparison in `signatureOK` and aborting on mismatch;
then the body is parsed.  In the keyed branch frames i+1..i+4 provably exist
(`frames.length - i ≥ 5`), so reading them with a default is faithful. -/
def Message.decode (self : Message) (frames : List String) (scheme key : String) :
    DecodeResult :=
  let scheme := if scheme = "" then "sha256" else scheme
  let i := delimIndex frames
  let m := { self with idents := frames.take i }
  if frames.length - i < 5 then
    ⟨m, DStatus.abortedFrames, 0, false⟩
  else if frames.getD i "" ≠ DELIMITER then
    ⟨m, DStatus.abortedDelim, 0, false⟩
  else if key ≠ "" then
    match frames.get? (i + 5) with
    | none => ⟨m, DStatus.threw, 0, false⟩
    | some f5 =>
      let obtained := frames.getD (i + 1) ""
      let expected := hmacHex scheme key
        [frames.getD (i + 2) "", frames.getD (i + 3) "", frames.getD (i + 4) "", f5]
      let ok := expected == obtained
      let m := { m with signatureOK := some ok }
      if ok then parseBody m frames i true
      else ⟨m, DStatus.abortedSig, 0, true⟩
  else
    parseBody m frames i false

/-- Model of `Message.prototype._encode(scheme, key)` (lines 227-259):
serialize the four sections in header, parentHeader, metadata, content
order; with a truthy key the signature is the hex HMAC over those four
serialized buffers in that order, otherwise the empty string; the output is
`idents ++ [DELIMITER, signature, header, parentHeader, metadata, content]`.
`blobs` are never read. -/
def Message.encode (self : Message) (scheme key : String) : List String :=
  let scheme := if scheme = "" then "sha256" else scheme
  let header := Json.stringify self.header
  let parentHeader := Json.stringify self.parentHeader
  let metadata := Json.stringify self.metadata
  let content := Json.stringify self.content
  let signature :=
    if key ≠ "" then hmacHex scheme key [header, parentHeader, metadata, content]
    else ""
  self.idents ++ [DELIMITER, signature, header, parentHeader, metadata, content]

/-! ### The socket adapter (`Socket`, lines 269-400) -/

/-- One entry of the adapter's bookkeeping table `this._jmp._listeners`
(lines 317-325): the user handler and the wrapped closure registered on the
underlying transport, both represented by opaque identities. -/
structure ListenerEntry where
  unwrapped : Nat
  wrapped : Nat
deriving DecidableEq, Repr

/-- Adapter state: the per-socket `_jmp` configuration and bookkeeping table,
the underlying transport emitter's listener registry (in registration
order), and a source of fresh identities for wrapped closures. -/
structure SocketState where
  scheme : String
  key : String
  listeners : List ListenerEntry
  transport : List (String × Nat)
  nextId : Nat
deriving DecidableEq, Repr

/-- `new Socket(socketType, scheme, key)` (lines 269-276): empty bookkeeping
table, nothing intercepted yet. -/
def freshSocket (scheme key : String) : SocketState :=
  ⟨scheme, key, [], [], 0⟩

/-- `Socket.prototype.on(event, listener)` (lines 310-327): non-"message"
events pass straight to the underlying emitter; for "message" a wrapped
closure is created, recorded in the bookkeeping table and registered on the
underlying emitter. -/
def Socket.on (s : SocketState) (event : String) (listener : Nat) : SocketState :=
  if event ≠ "message" then
    { s with transport := s.transport ++ [(event, listener)] }
  else
    { s with
      listeners := s.listeners ++ [⟨listener, s.nextId⟩],
      transport := s.transport ++ [("message", s.nextId)],
      nextId := s.nextId + 1 }

/-- Removal of the first matching registration from an emitter registry. -/
def removeFirst : List (String × Nat) → (String × Nat) → List (String × Nat)
  | [], _ => []
  | x :: xs, y => if x = y then xs else x :: removeFirst xs y

/-- Node `EventEmitter.prototype.removeListener(type, listener)` on the
underlying transport: removes the first registration matching both the event
and the listener.  When the listener argument is absent (`undefined`), no
registration matches — current Node in fact throws a `TypeError` for a
non-function listener, and in either reading nothing is removed. -/
def emitterRemoveListener (reg : List (String × Nat)) (event : Option String)
    (listener : Option Nat) : List (String × Nat) :=
  match event, listener with
  | some e, some l => removeFirst reg (e, l)
  | _, _ => reg

/-- `Socket.prototype.removeAllListeners(event)` (lines 392-400): with no
argument or event "message" the bookkeeping table is cleared; then the call
delegates to the *single-listener* `p.removeListener.apply(this, arguments)`
— with no listener argument — rather than to the emitter's
`removeAllListeners`. -/
def Socket.removeAllListeners (s : SocketState) (event : Option String) :
    SocketState :=
  let s :=
    if event = none ∨ event = some "message" then { s with listeners := [] } else s
  { s with transport := emitterRemoveListener s.transport event none }

/-- One raw "message" delivery through the wrapper installed by
`Socket.prototype.on` (lines 317-324): a fresh `Message` is constructed,
`_decode` is run with the socket's scheme and key, and then
`listener(message)` is invoked — unconditionally, the call is not guarded by
the decode outcome.  Only a thrown decode (which propagates out of the
wrapper) prevents the invocation.  Returns the arguments of the user-handler
invocations that the delivery produces. -/
def wrappedDeliveries (scheme key : String) (frames : List String) : List Message :=
  let r := Message.decode freshMessage frames scheme key
  match r.status with
  | DStatus.threw => []
  | _ => [r.msg]

/-! ### `Message.prototype.respond` (lines 123-148) -/

/-- JS truthiness of a JSON value (`undefined` is handled by `optTruthy`). -/
def Json.truthy : Json → Bool
  | Json.null => false
  | Json.bool b => b
  | Json.str s => s ≠ ""
  | Json.arr _ => true
  | Json.obj _ => true

def optTruthy : Option Json → Bool
  | none => false
  | some j => j.truthy

/-- JS property read `j[k]`: `undefined` (`none`) when absent or when `j` is
not an object. -/
def Json.getField : Json → String → Option Json
  | Json.obj kvs, k => (kvs.find? (fun kv => kv.1 == k)).map (fun kv => kv.2)
  | _, _ => none

/-- An object entry that is simply dropped when the value is `undefined`
(matching what `JSON.stringify` does with `undefined`-valued properties). -/
def optEntry (k : String) (v : Option Json) : List (String × Json) :=
  match v with
  | none => []
  | some j => [(k, j)]

/-- `x || {}`: the value when truthy, otherwise an empty object. -/
def jsOrEmptyObj : Option Json → Json
  | none => Json.obj []
  | some j => if j.truthy then j else Json.obj []

/-- The response header built by `respond` (lines 130-141): fresh `msg_id`,
the original header's `username` and `session`, the given `msg_type`; then
`version` is set from the original header when truthy and overwritten by a
truthy `protocolVersion` argument. -/
def respHeader (newId : String) (u s : Option Json) (messageType : String)
    (v : Option Json) : Json :=
  Json.obj
    ([("msg_id", Json.str newId)]
      ++ optEntry "username" u
      ++ optEntry "session" s
      ++ [("msg_type", Json.str messageType)]
      ++ optEntry "version" v)

/-- Model of `Message.prototype.respond(socket, messageType, content,
metadata, protocolVersion)` (lines 123-148), returning the constructed
response.  `uuid.v4()` is modelled by the explicit `newId` parameter.
`this.header.username` would throw in JS if the header were `null`; the
claims are stated for object headers, where `getField` is faithful. -/
def Message.respond (self : Message) (newId : String) (messageType : String)
    (content metadata : Option Json) (protocolVersion : Option String) : Message :=
  let versionFromHeader : Option Json :=
    if self.header.truthy && optTruthy (self.header.getField "version") then
      self.header.getField "version"
    else none
  let version : Option Json :=
    match protocolVersion with
    | some pv => if pv ≠ "" then some (Json.str pv) else versionFromHeader
    | none => versionFromHeader
  { freshMessage with
    idents := self.idents,
    header := respHeader newId (self.header.getField "username")
      (self.header.getField "session") messageType version,
    parentHeader := self.header,
    content := jsOrEmptyObj content,
    metadata := jsOrEmptyObj metadata }

/-- `respond` performs exactly one `socket.send`, with the constructed
response (line 147). -/
def Message.respondSends (self : Message) (newId : String) (messageType : String)
    (content metadata : Option Json) (protocolVersion : Option String) :
    List Message :=
  [self.respond newId messageType content metadata protocolVersion]

/-- Concrete request used to witness the `respond` claim: the header of the
spec's respond-linkage example. -/
def c6header : List (String × Json) :=
  [("msg_id", Json.str "a"), ("username", Json.str "u"), ("session", Json.str "s"),
    ("msg_type", Json.str "execute_request"), ("version", Json.str "5.0")]

def c6self : Message := { freshMessage with header := Json.obj c6header }

theorem sizeJ_pos (j : Json) : 1 ≤ sizeJ j := by
  cases j <;> simp [sizeJ]

theorem mk_data_eq (s : String) : String.mk s.data = s := rfl

theorem parseStrBody_escape (s rest : List Char) :
    parseStrBody (escapeStr s ++ '"' :: rest) = some (s, rest) := by
  induction s with
  | nil =>
    simp only [escapeStr, List.nil_append]
    rw [parseStrBody.eq_def]
    simp [show ¬ ('"' : Char) = '\\' from by decide]
  | cons c cs ih =>
    by_cases h1 : c = '"' ∨ c = '\\'
    · have he : escapeChar c = ['\\', c] := by simp [escapeChar, h1]
      simp only [escapeStr, he, List.cons_append, List.nil_append]
      rw [parseStrBody.eq_def]
      simp [ih]
    · push_neg at h1
      have he : escapeChar c = [c] := by simp [escapeChar, h1.1, h1.2]
      simp only [escapeStr, he, List.cons_append, List.nil_append]
      rw [parseStrBody.eq_def]
      simp [h1.1, h1.2, ih]

/-- The first character of any serialized value: never a closing bracket,
closing brace or comma. -/
theorem stringifyJ_head (j : Json) :
    ∃ c t, stringifyJ j = c :: t ∧ ¬ c = ']' ∧ ¬ c = '}' := by
  cases j with
  | null => exact ⟨'n', ['u', 'l', 'l'], by rw [stringifyJ]; rfl, by decide⟩
  | bool b =>
    cases b with
    | true => exact ⟨'t', ['r', 'u', 'e'], by rw [stringifyJ]; rfl, by decide⟩
    | false => exact ⟨'f', ['a', 'l', 's', 'e'], by rw [stringifyJ]; rfl, by decide⟩
  | str s => exact ⟨'"', _, by rw [stringifyJ], by decide⟩
  | arr xs => exact ⟨'[', _, by rw [stringifyJ], by decide⟩
  | obj ms => exact ⟨'{', _, by rw [stringifyJ], by decide⟩

theorem parseVal_succ (f : Nat) (cs : List Char) :
    parseVal (f + 1) cs =
      match cs with
      | 'n' :: 'u' :: 'l' :: 'l' :: rest => some (Json.null, rest)
      | 't' :: 'r' :: 'u' :: 'e' :: rest => some (Json.bool true, rest)
      | 'f' :: 'a' :: 'l' :: 's' :: 'e' :: rest => some (Json.bool false, rest)
      | '"' :: rest =>
        (match parseStrBody rest with
         | none => none
         | some (s, r) => some (Json.str (String.mk s), r))
      | '[' :: rest => parseArrG (parseVal f) f rest
      | '{' :: rest => parseObjG (parseVal f) f rest
      | _ => none := by
  rw [parseVal.eq_def]

theorem parseArrG_rbrack (pv : List Char → Option (Json × List Char)) (f : Nat)
    (cs : List Char) : parseArrG pv f (']' :: cs) = some (Json.arr [], cs) := by
  rw [parseArrG.eq_def]
  simp

theorem parseArrG_cons (pv : List Char → Option (Json × List Char)) (f : Nat)
    (c : Char) (cs : List Char) (h : ¬ c = ']') :
    parseArrG pv (f + 1) (c :: cs) =
      match pv (c :: cs) with
      | none => none
      | some (j, r) =>
        match parseATailG pv f r with
        | none => none
        | some (js, r2) => some (Json.arr (j :: js), r2) := by
  rw [parseArrG.eq_def]
  simp [h]

theorem parseATailG_rbrack (pv : List Char → Option (Json × List Char)) (f : Nat)
    (cs : List Char) : parseATailG pv f (']' :: cs) = some ([], cs) := by
  rw [parseATailG.eq_def]
  simp

theorem parseATailG_comma (pv : List Char → Option (Json × List Char)) (f : Nat)
    (cs : List Char) :
    parseATailG pv (f + 1) (',' :: cs) =
      match pv cs with
      | none => none
      | some (j, r) =>
        match parseATailG pv f r with
        | none => none
        | some (js, r2) => some (j :: js, r2) := by
  rw [parseATailG.eq_def]
  simp [show ¬ (',' : Char) = ']' from by decide]

theorem parseObjG_rbrace (pv : List Char → Option (Json × List Char)) (f : Nat)
    (cs : List Char) : parseObjG pv f ('}' :: cs) = some (Json.obj [], cs) := by
  rw [parseObjG.eq_def]
  simp

theorem parseObjG_cons (pv : List Char → Option (Json × List Char)) (f : Nat)
    (c : Char) (cs : List Char) (h : ¬ c = '}') :
    parseObjG pv (f + 1) (c :: cs) =
      match parseMemberG pv (c :: cs) with
      | none => none
      | some (m, r) =>
        match parseOTailG pv f r with
        | none => none
        | some (ms, r2) => some (Json.obj (m :: ms), r2) := by
  rw [parseObjG.eq_def]
  simp [h]

theorem parseOTailG_rbrace (pv : List Char → Option (Json × List Char)) (f : Nat)
    (cs : List Char) : parseOTailG pv f ('}' :: cs) = some ([], cs) := by
  rw [parseOTailG.eq_def]
  simp

theorem parseOTailG_comma (pv : List Char → Option (Json × List Char)) (f : Nat)
    (cs : List Char) :
    parseOTailG pv (f + 1) (',' :: cs) =
      match parseMemberG pv cs with
      | none => none
      | some (m, r) =>
        match parseOTailG pv f r with
        | none => none
        | some (ms, r2) => some (m :: ms, r2) := by
  rw [parseOTailG.eq_def]
  simp [show ¬ (',' : Char) = '}' from by decide]

theorem parseMemberG_quote (pv : List Char → Option (Json × List Char))
    (rest : List Char) :
    parseMemberG pv ('"' :: rest) =
      match parseStrBody rest with
      | none => none
      | some (k, r) =>
        match r with
        | ':' :: r2 =>
          (match pv r2 with
           | none => none
           | some (j, r3) => some ((String.mk k, j), r3))
        | _ => none := by
  rw [parseMemberG.eq_def]
  simp

theorem json_sizeOf_pos (j : Json) : 1 ≤ sizeOf j := by
  cases j <;> simp

/-- Master round-trip lemma, by induction on a structural-size bound `n`:
parsing the serialization of `j` (with any continuation `rest` and enough
fuel) succeeds and returns `j`. -/
theorem parseVal_stringify_master :
    ∀ (n : Nat) (j : Json) (F : Nat) (rest : List Char),
      sizeOf j ≤ n → sizeJ j ≤ F →
      parseVal F (stringifyJ j ++ rest) = some (j, rest) := by
  intro n
  induction n with
  | zero =>
    intro j F rest h0 _
    exact absurd h0 (by have := json_sizeOf_pos j; omega)
  | succ n ih =>
    have hmem : ∀ (k : String) (v : Json) (F : Nat) (rest : List Char),
        sizeOf v ≤ n → sizeJ v ≤ F →
        parseMemberG (parseVal F) (stringifyMember (k, v) ++ rest) = some ((k, v), rest) := by
      intro k v F rest hsz hF
      rw [stringifyMember]
      simp only [List.cons_append, List.append_assoc, List.singleton_append, List.nil_append]
      rw [parseMemberG_quote]
      have hs := parseStrBody_escape k.data (':' :: (stringifyJ v ++ rest))
      have hv := ih v F rest hsz hF
      simp only [hs, hv, mk_data_eq]
    have hatail : ∀ (xs : List Json) (F f : Nat) (rest : List Char),
        sizeOf xs ≤ n + 1 → sizeA xs ≤ f → sizeA xs ≤ F →
        parseATailG (parseVal F) f (stringifyATail xs ++ rest) = some (xs, rest) := by
      intro xs
      induction xs with
      | nil =>
        intro F f rest _ _ _
        rw [stringifyATail]
        simp only [List.cons_append, List.nil_append, List.singleton_append]
        exact parseATailG_rbrack _ _ _
      | cons x xs2 ihx =>
        intro F f rest hsz h1 h2
        simp only [List.cons.sizeOf_spec] at hsz
        simp only [sizeA] at h1 h2
        obtain ⟨f2, rfl⟩ : ∃ f2, f = f2 + 1 := ⟨f - 1, by omega⟩
        rw [stringifyATail]
        simp only [List.cons_append, List.append_assoc]
        rw [parseATailG_comma]
        have hv := ih x F (stringifyATail xs2 ++ rest) (by omega) (by omega)
        have ht := ihx F f2 rest (by omega) (by have := sizeJ_pos x; omega) (by omega)
        simp only [hv, ht]
    have harr : ∀ (xs : List Json) (F : Nat) (rest : List Char),
        sizeOf xs ≤ n + 1 → sizeA xs ≤ F →
        parseArrG (parseVal F) F (stringifyA xs ++ rest) = some (Json.arr xs, rest) := by
      intro xs F rest hsz h
      cases xs with
      | nil =>
        rw [stringifyA]
        simp only [List.cons_append, List.nil_append, List.singleton_append]
        exact parseArrG_rbrack _ _ _
      | cons x xs2 =>
        simp only [List.cons.sizeOf_spec] at hsz
        simp only [sizeA] at h
        obtain ⟨F2, rfl⟩ : ∃ F2, F = F2 + 1 := ⟨F - 1, by omega⟩
        rw [stringifyA]
        obtain ⟨c, t, hct, hc, _⟩ := stringifyJ_head x
        rw [hct]
        simp only [List.cons_append, List.append_assoc]
        rw [parseArrG_cons _ _ _ _ hc]
        have hv := ih x (F2 + 1) (stringifyATail xs2 ++ rest) (by omega) (by omega)
        rw [hct] at hv
        simp only [List.cons_append, List.append_assoc] at hv
        have ht := hatail xs2 (F2 + 1) F2 rest (by omega) (by have := sizeJ_pos x; omega)
          (by omega)
        simp only [hv, ht]
    have hotail : ∀ (ms : List (String × Json)) (F f : Nat) (rest : List Char),
        sizeOf ms ≤ n + 1 → sizeO ms ≤ f → sizeO ms ≤ F →
        parseOTailG (parseVal F) f (stringifyOTail ms ++ rest) = some (ms, rest) := by
      intro ms
      induction ms with
      | nil =>
        intro F f rest _ _ _
        rw [stringifyOTail]
        simp only [List.cons_append, List.nil_append, List.singleton_append]
        exact parseOTailG_rbrace _ _ _
      | cons m ms2 ihm =>
        obtain ⟨k, v⟩ := m
        intro F f rest hsz h1 h2
        simp only [List.cons.sizeOf_spec, Prod.mk.sizeOf_spec] at hsz
        simp [sizeO] at h1 h2
        obtain ⟨f2, rfl⟩ : ∃ f2, f = f2 + 1 := ⟨f - 1, by omega⟩
        rw [stringifyOTail]
        simp only [List.cons_append, List.append_assoc]
        rw [parseOTailG_comma]
        have hm := hmem k v F (stringifyOTail ms2 ++ rest) (by omega) (by omega)
        have ht := ihm F f2 rest (by omega) (by have := sizeJ_pos v; omega) (by omega)
        simp only [hm, ht]
    have hobj : ∀ (ms : List (String × Json)) (F : Nat) (rest : List Char),
        sizeOf ms ≤ n + 1 → sizeO ms ≤ F →
        parseObjG (parseVal F) F (stringifyO ms ++ rest) = some (Json.obj ms, rest) := by
      intro ms F rest hsz h
      cases ms with
      | nil =>
        rw [stringifyO]
        simp only [List.cons_append, List.nil_append, List.singleton_append]
        exact parseObjG_rbrace _ _ _
      | cons m ms2 =>
        obtain ⟨k, v⟩ := m
        simp only [List.cons.sizeOf_spec, Prod.mk.sizeOf_spec] at hsz
        simp [sizeO] at h
        obtain ⟨F2, rfl⟩ : ∃ F2, F = F2 + 1 := ⟨F - 1, by omega⟩
        rw [stringifyO, stringifyMember]
        simp only [List.cons_append, List.append_assoc, List.singleton_append, List.nil_append]
        rw [parseObjG_cons _ _ _ _ (by decide : ¬ ('"' : Char) = '}')]
        have hm := hmem k v (F2 + 1) (stringifyOTail ms2 ++ rest) (by omega) (by omega)
        rw [stringifyMember] at hm
        simp only [List.cons_append, List.append_assoc, List.singleton_append,
          List.nil_append] at hm
        have ht := hotail ms2 (F2 + 1) F2 rest (by omega) (by have := sizeJ_pos v; omega)
          (by omega)
        simp only [hm, ht]
    intro j F rest hsz hF
    obtain ⟨F2, rfl⟩ : ∃ F2, F = F2 + 1 := ⟨F - 1, by have := sizeJ_pos j; omega⟩
    cases j with
    | null =>
      rw [stringifyJ, parseVal_succ]
      simp [nullChars]
    | bool b =>
      cases b with
      | true =>
        rw [stringifyJ, parseVal_succ]
        simp [trueChars]
      | false =>
        rw [stringifyJ, parseVal_succ]
        simp [falseChars]
    | str s =>
      rw [stringifyJ, parseVal_succ]
      simp only [List.cons_append, List.append_assoc, List.singleton_append]
      simp [parseStrBody_escape, mk_data_eq]
    | arr xs =>
      rw [stringifyJ, parseVal_succ]
      simp only [List.cons_append]
      simp only [Json.arr.sizeOf_spec] at hsz
      simp only [sizeJ] at hF
      exact harr xs F2 rest (by omega) (by omega)
    | obj ms =>
      rw [stringifyJ, parseVal_succ]
      simp only [List.cons_append]
      simp only [Json.obj.sizeOf_spec] at hsz
      simp only [sizeJ] at hF
      exact hobj ms F2 rest (by omega) (by omega)

/-- Round trip of a single value with any continuation and enough fuel. -/
theorem parseVal_stringify (j : Json) (F : Nat) (rest : List Char) (h : sizeJ j ≤ F) :
    parseVal F (stringifyJ j ++ rest) = some (j, rest) :=
  parseVal_stringify_master (sizeOf j) j F rest (Nat.le_refl _) h

/-- The fuel measure is bounded by the length of the serialization, so
`(stringifyJ j).length` is always enough fuel. -/
theorem sizeJ_le_length_master :
    ∀ (n : Nat) (j : Json), sizeOf j ≤ n → sizeJ j ≤ (stringifyJ j).length := by
  intro n
  induction n with
  | zero =>
    intro j h0
    exact absurd h0 (by have := json_sizeOf_pos j; omega)
  | succ n ih =>
    have hC : ∀ xs : List Json, sizeOf xs ≤ n + 1 →
        sizeA xs + 1 ≤ (stringifyATail xs).length := by
      intro xs
      induction xs with
      | nil =>
        intro _
        simp [stringifyATail, sizeA]
      | cons x xs2 ihx =>
        intro hsz
        simp only [List.cons.sizeOf_spec] at hsz
        have hx := ih x (by omega)
        have ht := ihx (by omega)
        simp only [stringifyATail, sizeA, List.length_cons, List.length_append]
        omega
    have hB : ∀ xs : List Json, sizeOf xs ≤ n + 1 →
        sizeA xs ≤ (stringifyA xs).length := by
      intro xs hsz
      cases xs with
      | nil => simp [stringifyA, sizeA]
      | cons x xs2 =>
        simp only [List.cons.sizeOf_spec] at hsz
        have hx := ih x (by omega)
        have ht := hC xs2 (by omega)
        simp only [stringifyA, sizeA, List.length_append]
        omega
    have hCO : ∀ ms : List (String × Json), sizeOf ms ≤ n + 1 →
        sizeO ms + 1 ≤ (stringifyOTail ms).length := by
      intro ms
      induction ms with
      | nil =>
        intro _
        simp [stringifyOTail, sizeO]
      | cons m ms2 ihm =>
        obtain ⟨k, v⟩ := m
        intro hsz
        simp only [List.cons.sizeOf_spec, Prod.mk.sizeOf_spec] at hsz
        have hv := ih v (by omega)
        have ht := ihm (by omega)
        simp [stringifyOTail, stringifyMember, sizeO, List.length_append]
        omega
    have hBO : ∀ ms : List (String × Json), sizeOf ms ≤ n + 1 →
        sizeO ms ≤ (stringifyO ms).length := by
      intro ms hsz
      cases ms with
      | nil => simp [stringifyO, sizeO]
      | cons m ms2 =>
        obtain ⟨k, v⟩ := m
        simp only [List.cons.sizeOf_spec, Prod.mk.sizeOf_spec] at hsz
        have hv := ih v (by omega)
        have ht := hCO ms2 (by omega)
        simp [stringifyO, stringifyMember, sizeO, List.length_append]
        omega
    intro j hsz
    cases j with
    | null =>
      simp [sizeJ, stringifyJ, nullChars]
    | bool b =>
      cases b <;> simp [sizeJ, stringifyJ, trueChars, falseChars]
    | str s =>
      simp [sizeJ, stringifyJ]
    | arr xs =>
      simp only [Json.arr.sizeOf_spec] at hsz
      have hb := hB xs (by omega)
      simp only [sizeJ, stringifyJ, List.length_cons]
      omega
    | obj ms =>
      simp only [Json.obj.sizeOf_spec] at hsz
      have hb := hBO ms (by omega)
      simp only [sizeJ, stringifyJ, List.length_cons]
      omega

theorem sizeJ_le_length (j : Json) : sizeJ j ≤ (stringifyJ j).length :=
  sizeJ_le_length_master (sizeOf j) j (Nat.le_refl _)

/-- The JSON model round trip: parsing a serialized value recovers it. -/
theorem Json.parse_stringify (j : Json) : Json.parse (Json.stringify j) = some j := by
  have h := parseVal_stringify j (stringifyJ j).length [] (sizeJ_le_length j)
  rw [List.append_nil] at h
  have e1 : (Json.stringify j).length = (stringifyJ j).length := rfl
  have e2 : (Json.stringify j).data = stringifyJ j := rfl
  rw [Json.parse.eq_def, e1, e2, h]

/-! ### Decode evaluation lemmas -/

theorem delimIndex_no_delim (frames : List String) :
    (∀ f ∈ frames, f ≠ DELIMITER) → delimIndex frames = frames.length := by
  induction frames with
  | nil =>
    intro _
    simp [delimIndex]
  | cons a l ih =>
    intro h
    have ha : ¬ a = DELIMITER := h a (by simp)
    have ih2 := ih (fun f hf => h f (by simp [hf]))
    have hb : (a == DELIMITER) = false := by simp [ha]
    simp only [delimIndex, List.findIdx_cons] at ih2 ⊢
    simp [hb, ih2]

theorem delimIndex_append (pre rest : List String) :
    (∀ f ∈ pre, f ≠ DELIMITER) → delimIndex (pre ++ DELIMITER :: rest) = pre.length := by
  induction pre with
  | nil =>
    intro _
    simp [delimIndex, List.findIdx_cons]
  | cons a l ih =>
    intro h
    have ha : ¬ a = DELIMITER := h a (by simp)
    have ih2 := ih (fun f hf => h f (by simp [hf]))
    have hb : (a == DELIMITER) = false := by simp [ha]
    simp only [List.cons_append, delimIndex, List.findIdx_cons] at ih2 ⊢
    simp [hb, ih2]

theorem get?_append_add (pre rest : List String) (k : Nat) :
    (pre ++ rest).get? (pre.length + k) = rest.get? k := by
  rw [List.get?_append_right (by omega)]
  congr 1
  omega

/-- Evaluation of the body-parsing tail on a well-formed frame sequence whose
four body frames parse. -/
theorem parseBody_wellformed (m : Message) (pre : List String)
    (sig f2 f3 f4 f5 : String) (bl : List String) (hm : Bool)
    (H P MD C : Json)
    (h2 : Json.parse f2 = some H) (h3 : Json.parse f3 = some P)
    (h4 : Json.parse f4 = some MD) (h5 : Json.parse f5 = some C) :
    parseBody m (pre ++ DELIMITER :: sig :: f2 :: f3 :: f4 :: f5 :: bl) pre.length hm =
      ⟨{ m with
          header := H, parentHeader := P, metadata := MD, content := C,
          blobs := bl }, DStatus.completed, 4, hm⟩ := by
  have g2 : (pre ++ DELIMITER :: sig :: f2 :: f3 :: f4 :: f5 :: bl).get? (pre.length + 2)
      = some f2 := by
    rw [get?_append_add]
    rfl
  have g3 : (pre ++ DELIMITER :: sig :: f2 :: f3 :: f4 :: f5 :: bl).get? (pre.length + 3)
      = some f3 := by
    rw [get?_append_add]
    rfl
  have g4 : (pre ++ DELIMITER :: sig :: f2 :: f3 :: f4 :: f5 :: bl).get? (pre.length + 4)
      = some f4 := by
    rw [get?_append_add]
    rfl
  have g5 : (pre ++ DELIMITER :: sig :: f2 :: f3 :: f4 :: f5 :: bl).get? (pre.length + 5)
      = some f5 := by
    rw [get?_append_add]
    rfl
  have hd : (pre ++ DELIMITER :: sig :: f2 :: f3 :: f4 :: f5 :: bl).drop (pre.length + 6)
      = bl := by
    rw [List.drop_append]
    rfl
  simp only [parseBody, g2, g3, g4, g5, h2, h3, h4, h5, hd]

theorem getD_append_at (pre rest : List String) (k : Nat) (d : String) :
    (pre ++ rest).getD (pre.length + k) d = rest.getD k d := by
  rw [List.getD_eq_get?, List.getD_eq_get?, get?_append_add]

/-- On a frame sequence with a delimiter and five frames after it, a no-key
decode passes both guards, skips the signature step and runs the body
parser, with idents set to the frames before the delimiter. -/
theorem decode_wellformed_nokey (self : Message) (pre : List String)
    (sig f2 f3 f4 f5 : String) (bl : List String) (scheme : String)
    (hpre : ∀ f ∈ pre, f ≠ DELIMITER) :
    Message.decode self (pre ++ DELIMITER :: sig :: f2 :: f3 :: f4 :: f5 :: bl) scheme "" =
      parseBody { self with idents := pre }
        (pre ++ DELIMITER :: sig :: f2 :: f3 :: f4 :: f5 :: bl) pre.length false := by
  have hi := delimIndex_append pre (sig :: f2 :: f3 :: f4 :: f5 :: bl) hpre
  have hlen :
      ¬ ((pre ++ DELIMITER :: sig :: f2 :: f3 :: f4 :: f5 :: bl).length - pre.length < 5) := by
    simp [List.length_append]
  have g0 : (pre ++ DELIMITER :: sig :: f2 :: f3 :: f4 :: f5 :: bl).getD pre.length ""
      = DELIMITER := by
    have h := getD_append_at pre (DELIMITER :: sig :: f2 :: f3 :: f4 :: f5 :: bl) 0 ""
    simpa using h
  simp only [Message.decode, hi, List.take_left]
  rw [if_neg hlen, if_neg (fun hne => hne g0), if_neg (by simp)]

/-- On a frame sequence with a delimiter and five frames after it, a keyed
decode passes both guards, computes the HMAC over the four body frames in
header, parent-header, metadata, content order, compares it with the
signature frame, records the outcome in `signatureOK`, and either parses
the body (match) or aborts (mismatch). -/
theorem decode_wellformed_keyed (self : Message) (pre : List String)
    (sig f2 f3 f4 f5 : String) (bl : List String) (scheme key : String)
    (hpre : ∀ f ∈ pre, f ≠ DELIMITER) (hk : key ≠ "") :
    Message.decode self (pre ++ DELIMITER :: sig :: f2 :: f3 :: f4 :: f5 :: bl) scheme key =
      (if hmacHex (if scheme = "" then "sha256" else scheme) key [f2, f3, f4, f5] == sig then
        parseBody { self with idents := pre, signatureOK := some true }
          (pre ++ DELIMITER :: sig :: f2 :: f3 :: f4 :: f5 :: bl) pre.length true
      else
        ⟨{ self with idents := pre, signatureOK := some false },
          DStatus.abortedSig, 0, true⟩) := by
  have hi := delimIndex_append pre (sig :: f2 :: f3 :: f4 :: f5 :: bl) hpre
  have hlen :
      ¬ ((pre ++ DELIMITER :: sig :: f2 :: f3 :: f4 :: f5 :: bl).length - pre.length < 5) := by
    simp [List.length_append]
  have g0 : (pre ++ DELIMITER :: sig :: f2 :: f3 :: f4 :: f5 :: bl).getD pre.length ""
      = DELIMITER := by
    have h := getD_append_at pre (DELIMITER :: sig :: f2 :: f3 :: f4 :: f5 :: bl) 0 ""
    simpa using h
  have g5 : (pre ++ DELIMITER :: sig :: f2 :: f3 :: f4 :: f5 :: bl).get? (pre.length + 5)
      = some f5 := by
    rw [get?_append_add]
    rfl
  have d1 : (pre ++ DELIMITER :: sig :: f2 :: f3 :: f4 :: f5 :: bl).getD (pre.length + 1) ""
      = sig := by
    rw [getD_append_at]
    rfl
  have d2 : (pre ++ DELIMITER :: sig :: f2 :: f3 :: f4 :: f5 :: bl).getD (pre.length + 2) ""
      = f2 := by
    rw [getD_append_at]
    rfl
  have d3 : (pre ++ DELIMITER :: sig :: f2 :: f3 :: f4 :: f5 :: bl).getD (pre.length + 3) ""
      = f3 := by
    rw [getD_append_at]
    rfl
  have d4 : (pre ++ DELIMITER :: sig :: f2 :: f3 :: f4 :: f5 :: bl).getD (pre.length + 4) ""
      = f4 := by
    rw [getD_append_at]
    rfl
  simp only [Message.decode, hi, List.take_left]
  rw [if_neg hlen, if_neg (fun hne => hne g0), if_pos hk]
  simp only [g5, d1, d2, d3, d4]
  cases hok : (hmacHex (if scheme = "" then "sha256" else scheme) key [f2, f3, f4, f5] == sig) with
  | true => simp [hok]
  | false => simp [hok]

theorem parseBody_msg_idents (m : Message) (frames : List String) (i : Nat) (hm : Bool) :
    (parseBody m frames i hm).msg.idents = m.idents := by
  simp only [parseBody]
  repeat' split
  all_goals simp

theorem parseBody_msg_sigOK (m : Message) (frames : List String) (i : Nat) (hm : Bool) :
    (parseBody m frames i hm).msg.signatureOK = m.signatureOK := by
  simp only [parseBody]
  repeat' split
  all_goals simp

theorem parseBody_status_not_aborted (m : Message) (frames : List String) (i : Nat)
    (hm : Bool) :
    (parseBody m frames i hm).status ≠ DStatus.abortedFrames
    ∧ (parseBody m frames i hm).status ≠ DStatus.abortedDelim
    ∧ (parseBody m frames i hm).status ≠ DStatus.abortedSig := by
  simp only [parseBody]
  repeat' split
  all_goals simp

/-! ### The claims -/

/-- C7: for every Message, encode produces exactly the frame sequence
`idents ++ [delimiter, signature, header, parentHeader, metadata, content]`
(in that fixed order, exactly 6 frames after idents); blobs are never
emitted (encode is independent of them); the signature frame is the empty
string with no key and the hex HMAC over the four serialized sections in
header, parentHeader, metadata, content order with a non-empty key. -/
theorem C7_encode_frames (m : Message) (scheme key : String) :
    Message.encode m scheme key =
      m.idents ++ [DELIMITER,
        (if key ≠ "" then
          hmacHex (if scheme = "" then "sha256" else scheme) key
            [Json.stringify m.header, Json.stringify m.parentHeader,
              Json.stringify m.metadata, Json.stringify m.content]
        else ""),
        Json.stringify m.header, Json.stringify m.parentHeader,
        Json.stringify m.metadata, Json.stringify m.content]
    ∧ (Message.encode m scheme key).length = m.idents.length + 6
    ∧ (∀ bl : List String,
        Message.encode { m with blobs := bl } scheme key = Message.encode m scheme key) := by
  refine ⟨rfl, ?_, fun bl => rfl⟩
  simp [Message.encode]

/-- C9: a frame sequence with no delimiter-literal frame makes decode abort
via an early return after a diagnostic log (never an exception): all frames
are scanned into idents, the frame-count guard fails, and header,
parentHeader, metadata, content and blobs are left unpopulated, with no
JSON parse and no HMAC computation performed. -/
theorem C9_no_delimiter (frames : List String) (scheme key : String)
    (h : ∀ f ∈ frames, f ≠ DELIMITER) :
    Message.decode freshMessage frames scheme key =
      ⟨{ freshMessage with idents := frames }, DStatus.abortedFrames, 0, false⟩ := by
  have hi := delimIndex_no_delim frames h
  simp only [Message.decode, hi]
  rw [if_pos (by omega), List.take_length]

theorem C9_no_delimiter_witness :
    (∀ f ∈ ["a", "b"], f ≠ DELIMITER)
    ∧ Message.decode freshMessage ["a", "b"] "sha256" "k" =
        ⟨{ freshMessage with idents := ["a", "b"] }, DStatus.abortedFrames, 0, false⟩ :=
  ⟨by decide, C9_no_delimiter ["a", "b"] "sha256" "k" (by decide)⟩

/-- C3: round trip without signing.  For every Message whose idents contain
no delimiter-valued frame, decoding the encoding (no key on either side)
completes and reproduces header, parentHeader, metadata, content and idents
exactly (blobs excluded: encode never emits them, so the decoded blobs are
empty). -/
theorem C3_roundtrip (m : Message) (scheme : String)
    (hid : ∀ f ∈ m.idents, f ≠ DELIMITER) :
    (Message.decode freshMessage (Message.encode m scheme "") scheme "").status
        = DStatus.completed
    ∧ (Message.decode freshMessage (Message.encode m scheme "") scheme "").msg.header
        = m.header
    ∧ (Message.decode freshMessage (Message.encode m scheme "") scheme "").msg.parentHeader
        = m.parentHeader
    ∧ (Message.decode freshMessage (Message.encode m scheme "") scheme "").msg.metadata
        = m.metadata
    ∧ (Message.decode freshMessage (Message.encode m scheme "") scheme "").msg.content
        = m.content
    ∧ (Message.decode freshMessage (Message.encode m scheme "") scheme "").msg.idents
        = m.idents := by
  have he : Message.encode m scheme "" =
      m.idents ++ DELIMITER :: "" :: Json.stringify m.header
        :: Json.stringify m.parentHeader :: Json.stringify m.metadata
        :: Json.stringify m.content :: [] := rfl
  rw [he,
    decode_wellformed_nokey freshMessage m.idents "" (Json.stringify m.header)
      (Json.stringify m.parentHeader) (Json.stringify m.metadata)
      (Json.stringify m.content) [] scheme hid,
    parseBody_wellformed { freshMessage with idents := m.idents } m.idents ""
      (Json.stringify m.header) (Json.stringify m.parentHeader)
      (Json.stringify m.metadata) (Json.stringify m.content) [] false
      m.header m.parentHeader m.metadata m.content
      (Json.parse_stringify m.header) (Json.parse_stringify m.parentHeader)
      (Json.parse_stringify m.metadata) (Json.parse_stringify m.content)]
  simp

theorem C3_roundtrip_witness :
    (∀ f ∈ freshMessage.idents, f ≠ DELIMITER)
    ∧ ((Message.decode freshMessage (Message.encode freshMessage "sha256" "") "sha256" "").status
          = DStatus.completed
      ∧ (Message.decode freshMessage (Message.encode freshMessage "sha256" "") "sha256" "").msg.header
          = freshMessage.header
      ∧ (Message.decode freshMessage (Message.encode freshMessage "sha256" "") "sha256" "").msg.parentHeader
          = freshMessage.parentHeader
      ∧ (Message.decode freshMessage (Message.encode freshMessage "sha256" "") "sha256" "").msg.metadata
          = freshMessage.metadata
      ∧ (Message.decode freshMessage (Message.encode freshMessage "sha256" "") "sha256" "").msg.content
          = freshMessage.content
      ∧ (Message.decode freshMessage (Message.encode freshMessage "sha256" "") "sha256" "").msg.idents
          = freshMessage.idents) :=
  ⟨by simp [freshMessage], C3_roundtrip freshMessage "sha256" (by simp [freshMessage])⟩

/-- C1, counterexample: on an empty raw delivery the decode aborts with the
frame-count diagnostic, yet the wrapper still invokes the user handler
(once, with the unpopulated Message): the claim that the handler is never
invoked for an aborted decode is false for this code. -/
theorem C1_counterexample :
    (Message.decode freshMessage [] "sha256" "").status = DStatus.abortedFrames
    ∧ wrappedDeliveries "sha256" "" [] ≠ [] := by
  constructor
  · rfl
  · simp [wrappedDeliveries, Message.decode, delimIndex]

/-- C1 as amended: the wrapper constructs a fresh Message per delivery and
decodes it with the configured scheme and key, but then invokes the user
handler unconditionally; in particular, whenever the decode *aborts* (any
of the three logged abort kinds) the handler is still invoked exactly once,
with the partially populated Message.  Only a decode that throws prevents
the invocation. -/
theorem C1_dispatch_after_abort (scheme key : String) (frames : List String)
    (h : (Message.decode freshMessage frames scheme key).status = DStatus.abortedFrames
      ∨ (Message.decode freshMessage frames scheme key).status = DStatus.abortedDelim
      ∨ (Message.decode freshMessage frames scheme key).status = DStatus.abortedSig) :
    wrappedDeliveries scheme key frames
      = [(Message.decode freshMessage frames scheme key).msg] := by
  rcases h with h | h | h <;> simp [wrappedDeliveries, h]

theorem C1_dispatch_after_abort_witness :
    ((Message.decode freshMessage [] "sha256" "").status = DStatus.abortedFrames
      ∨ (Message.decode freshMessage [] "sha256" "").status = DStatus.abortedDelim
      ∨ (Message.decode freshMessage [] "sha256" "").status = DStatus.abortedSig)
    ∧ wrappedDeliveries "sha256" "" [] = [(Message.decode freshMessage [] "sha256" "").msg] :=
  ⟨Or.inl rfl, C1_dispatch_after_abort "sha256" "" [] (Or.inl rfl)⟩

/-- C2: the frame-count guard is off by one.  With a delimiter followed by
exactly 4 further frames, `messageFrames.length - i < 5` does not hold, so
decode does *not* abort: without a key it parses header and parent header
(2 JSON parses, contradicting "performs no JSON parsing") and then throws
on the absent content frame `messageFrames[i+5]`; with a key it throws
inside `hmac.update(messageFrames[i+5])`.  With 3 or fewer further frames
the guard does abort as the claim describes. -/
theorem C2_guard_off_by_one :
    (Message.decode freshMessage [DELIMITER, "", "null", "null", "null"] "sha256" "").status
        = DStatus.threw
    ∧ (Message.decode freshMessage [DELIMITER, "", "null", "null", "null"] "sha256" "").jsonParses
        = 2
    ∧ (Message.decode freshMessage [DELIMITER, "", "null", "null", "null"] "sha256" "k").status
        = DStatus.threw
    ∧ (Message.decode freshMessage [DELIMITER, "", "null", "null"] "sha256" "").status
        = DStatus.abortedFrames := by
  refine ⟨rfl, rfl, rfl, rfl⟩

/-- C5: `removeAllListeners("message")` clears the bookkeeping table but
delegates to the underlying emitter's single-listener `removeListener` with
no listener argument, which removes nothing: the wrapped handler (id 0,
registered by `on`) is still registered on the underlying transport
afterwards, contradicting the claim. -/
theorem C5_removeAll_leaves_wrapper :
    (Socket.removeAllListeners (Socket.on (freshSocket "sha256" "k") "message" 7)
        (some "message")).listeners = []
    ∧ (Socket.removeAllListeners (Socket.on (freshSocket "sha256" "k") "message" 7)
        (some "message")).transport = [("message", 0)] := by
  constructor <;> rfl

/-- C10, counterexample: decode is claimed to leave all fields other than
idents at their prior values on an abort, but on a signature-mismatch abort
`signatureOK` is set to `false` before the early return: on a fresh message
it changes from unset to `some false`. -/
theorem C10_counterexample :
    (Message.decode freshMessage [DELIMITER, "x", "null", "null", "null", "null"]
        "sha256" "k").msg.signatureOK ≠ freshMessage.signatureOK := by
  have h : (Message.decode freshMessage [DELIMITER, "x", "null", "null", "null", "null"]
      "sha256" "k").msg.signatureOK = some false := rfl
  rw [h]
  simp [freshMessage]

/-- C10 as amended: every decode call first overwrites idents with the
frames before the first delimiter (all frames when there is none), whatever
the outcome; on a frame-count or missing-delimiter abort every other field
keeps its prior value; on a signature-mismatch abort every other field
except `signatureOK` keeps its prior value, and `signatureOK` is set to
`some false`. -/
theorem C10_amended (self : Message) (frames : List String) (scheme key : String) :
    (Message.decode self frames scheme key).msg.idents = frames.take (delimIndex frames)
    ∧ ((Message.decode self frames scheme key).status = DStatus.abortedFrames
        ∨ (Message.decode self frames scheme key).status = DStatus.abortedDelim →
      (Message.decode self frames scheme key).msg
        = { self with idents := frames.take (delimIndex frames) })
    ∧ ((Message.decode self frames scheme key).status = DStatus.abortedSig →
      (Message.decode self frames scheme key).msg
        = { self with
            idents := frames.take (delimIndex frames)
            signatureOK := some false }) := by
  refine ⟨?_, ?_, ?_⟩
  · simp only [Message.decode]
    repeat' split
    all_goals simp [parseBody_msg_idents]
  · simp only [Message.decode]
    repeat' split
    all_goals intro hab
    all_goals rcases hab with hab | hab <;>
      first
      | exact absurd hab (parseBody_status_not_aborted _ _ _ _).1
      | exact absurd hab (parseBody_status_not_aborted _ _ _ _).2.1
      | simp_all
  · simp only [Message.decode]
    repeat' split
    all_goals intro hab
    all_goals
      first
      | exact absurd hab (parseBody_status_not_aborted _ _ _ _).2.2
      | simp_all

theorem C10_amended_witness :
    (Message.decode freshMessage [DELIMITER, "x", "null", "null", "null", "null"]
        "sha256" "k").msg
      = { freshMessage with
          idents := [DELIMITER, "x", "null", "null", "null", "null"].take
            (delimIndex [DELIMITER, "x", "null", "null", "null", "null"])
          signatureOK := some false } :=
  (C10_amended freshMessage [DELIMITER, "x", "null", "null", "null", "null"]
      "sha256" "k").2.2 rfl

/-- C4: keyed decode signature check.  With a non-empty key on a frame
sequence with a delimiter and five following frames, decode computes the
HMAC over the header, parent-header, metadata and content frames in that
order with the configured (defaulted) scheme and key, compares its hex
digest with the signature frame, and stores the comparison in
`signatureOK`; on mismatch it aborts at once with no field of the body
parsed (zero JSON parses); on match `signatureOK` is true and the body is
parsed — in particular frames produced by encode with the same scheme and
key always match and decode to the original sections. -/
theorem C4_keyed_signature (scheme key : String) (pre : List String)
    (sig f2 f3 f4 f5 : String) (bl : List String)
    (hk : key ≠ "") (hpre : ∀ f ∈ pre, f ≠ DELIMITER) :
    (Message.decode freshMessage (pre ++ DELIMITER :: sig :: f2 :: f3 :: f4 :: f5 :: bl)
        scheme key).msg.signatureOK
      = some (hmacHex (if scheme = "" then "sha256" else scheme) key [f2, f3, f4, f5] == sig)
    ∧ (hmacHex (if scheme = "" then "sha256" else scheme) key [f2, f3, f4, f5] ≠ sig →
        Message.decode freshMessage (pre ++ DELIMITER :: sig :: f2 :: f3 :: f4 :: f5 :: bl)
            scheme key
          = ⟨{ freshMessage with idents := pre, signatureOK := some false },
              DStatus.abortedSig, 0, true⟩)
    ∧ (hmacHex (if scheme = "" then "sha256" else scheme) key [f2, f3, f4, f5] = sig →
        ∀ H P MD C, Json.parse f2 = some H → Json.parse f3 = some P →
          Json.parse f4 = some MD → Json.parse f5 = some C →
          Message.decode freshMessage (pre ++ DELIMITER :: sig :: f2 :: f3 :: f4 :: f5 :: bl)
              scheme key
            = ⟨{ freshMessage with
                  idents := pre, header := H, parentHeader := P, metadata := MD,
                  content := C, blobs := bl, signatureOK := some true },
                DStatus.completed, 4, true⟩)
    ∧ (∀ m : Message, (∀ f ∈ m.idents, f ≠ DELIMITER) →
        (Message.decode freshMessage (Message.encode m scheme key) scheme key).status
            = DStatus.completed
        ∧ (Message.decode freshMessage (Message.encode m scheme key)
              scheme key).msg.signatureOK = some true) := by
  refine ⟨?_, ?_, ?_, ?_⟩
  · rw [decode_wellformed_keyed freshMessage pre sig f2 f3 f4 f5 bl scheme key hpre hk]
    cases hok : (hmacHex (if scheme = "" then "sha256" else scheme) key [f2, f3, f4, f5]
        == sig) with
    | true => simp [hok, parseBody_msg_sigOK]
    | false => simp [hok]
  · intro hne
    rw [decode_wellformed_keyed freshMessage pre sig f2 f3 f4 f5 bl scheme key hpre hk]
    have hok : (hmacHex (if scheme = "" then "sha256" else scheme) key [f2, f3, f4, f5]
        == sig) = false := by simp [hne]
    simp [hok]
  · intro heq H P MD C h2 h3 h4 h5
    rw [decode_wellformed_keyed freshMessage pre sig f2 f3 f4 f5 bl scheme key hpre hk]
    have hok : (hmacHex (if scheme = "" then "sha256" else scheme) key [f2, f3, f4, f5]
        == sig) = true := by simp [heq]
    rw [hok, if_pos rfl,
      parseBody_wellformed { freshMessage with idents := pre, signatureOK := some true }
        pre sig f2 f3 f4 f5 bl true H P MD C h2 h3 h4 h5]
  · intro m hm
    have he : Message.encode m scheme key =
        m.idents ++ DELIMITER
          :: hmacHex (if scheme = "" then "sha256" else scheme) key
              [Json.stringify m.header, Json.stringify m.parentHeader,
                Json.stringify m.metadata, Json.stringify m.content]
          :: Json.stringify m.header :: Json.stringify m.parentHeader
          :: Json.stringify m.metadata :: Json.stringify m.content :: [] := by
      simp [Message.encode, hk]
    rw [he,
      decode_wellformed_keyed freshMessage m.idents
        (hmacHex (if scheme = "" then "sha256" else scheme) key
          [Json.stringify m.header, Json.stringify m.parentHeader,
            Json.stringify m.metadata, Json.stringify m.content])
        (Json.stringify m.header) (Json.stringify m.parentHeader)
        (Json.stringify m.metadata) (Json.stringify m.content) [] scheme key hm hk]
    rw [if_pos (by simp),
      parseBody_wellformed
        { freshMessage with idents := m.idents, signatureOK := some true }
        m.idents _ (Json.stringify m.header) (Json.stringify m.parentHeader)
        (Json.stringify m.metadata) (Json.stringify m.content) [] true
        m.header m.parentHeader m.metadata m.content
        (Json.parse_stringify m.header) (Json.parse_stringify m.parentHeader)
        (Json.parse_stringify m.metadata) (Json.parse_stringify m.content)]
    exact ⟨rfl, rfl⟩

theorem C4_keyed_signature_witness :
    (("k" : String) ≠ "" ∧ (∀ f ∈ ([] : List String), f ≠ DELIMITER))
    ∧ ((Message.decode freshMessage ([] ++ DELIMITER :: "x" :: "null" :: "null" :: "null"
          :: "null" :: []) "sha256" "k").msg.signatureOK
        = some (hmacHex (if ("sha256" : String) = "" then "sha256" else "sha256") "k"
            ["null", "null", "null", "null"] == "x")
      ∧ (hmacHex (if ("sha256" : String) = "" then "sha256" else "sha256") "k"
            ["null", "null", "null", "null"] ≠ "x" →
          Message.decode freshMessage ([] ++ DELIMITER :: "x" :: "null" :: "null" :: "null"
              :: "null" :: []) "sha256" "k"
            = ⟨{ freshMessage with idents := [], signatureOK := some false },
                DStatus.abortedSig, 0, true⟩)
      ∧ (hmacHex (if ("sha256" : String) = "" then "sha256" else "sha256") "k"
            ["null", "null", "null", "null"] = "x" →
          ∀ H P MD C, Json.parse "null" = some H → Json.parse "null" = some P →
            Json.parse "null" = some MD → Json.parse "null" = some C →
            Message.decode freshMessage ([] ++ DELIMITER :: "x" :: "null" :: "null" :: "null"
                :: "null" :: []) "sha256" "k"
              = ⟨{ freshMessage with
                    idents := [], header := H, parentHeader := P, metadata := MD,
                    content := C, blobs := [], signatureOK := some true },
                  DStatus.completed, 4, true⟩)
      ∧ (∀ m : Message, (∀ f ∈ m.idents, f ≠ DELIMITER) →
          (Message.decode freshMessage (Message.encode m "sha256" "k") "sha256" "k").status
              = DStatus.completed
          ∧ (Message.decode freshMessage (Message.encode m "sha256" "k")
                "sha256" "k").msg.signatureOK = some true)) :=
  ⟨⟨by decide, by decide⟩,
    C4_keyed_signature "sha256" "k" [] "x" "null" "null" "null" "null" []
      (by decide) (by decide)⟩

/-- C8: no-key decode.  On a well-formed frame sequence with parseable body
frames and an empty key, decode skips the signature comparison entirely (no
HMAC is computed) and leaves `signatureOK` unset (`none`) even though the
signature frame may be non-empty or wrong, while still parsing header,
parentHeader, metadata and content and capturing the blobs; conversely any
keyed decode of such a sequence reaches the comparison step and never
leaves `signatureOK` unset. -/
theorem C8_nokey_signature (scheme : String) (pre : List String)
    (sig f2 f3 f4 f5 : String) (bl : List String)
    (hpre : ∀ f ∈ pre, f ≠ DELIMITER)
    (H P MD C : Json)
    (h2 : Json.parse f2 = some H) (h3 : Json.parse f3 = some P)
    (h4 : Json.parse f4 = some MD) (h5 : Json.parse f5 = some C) :
    Message.decode freshMessage (pre ++ DELIMITER :: sig :: f2 :: f3 :: f4 :: f5 :: bl)
        scheme ""
      = ⟨{ freshMessage with
            idents := pre, header := H, parentHeader := P, metadata := MD,
            content := C, blobs := bl }, DStatus.completed, 4, false⟩
    ∧ (Message.decode freshMessage (pre ++ DELIMITER :: sig :: f2 :: f3 :: f4 :: f5 :: bl)
        scheme "").msg.signatureOK = none
    ∧ (∀ key : String, key ≠ "" →
        (Message.decode freshMessage (pre ++ DELIMITER :: sig :: f2 :: f3 :: f4 :: f5 :: bl)
            scheme key).msg.signatureOK ≠ none) := by
  have hmain :
      Message.decode freshMessage (pre ++ DELIMITER :: sig :: f2 :: f3 :: f4 :: f5 :: bl)
          scheme ""
        = ⟨{ freshMessage with
              idents := pre, header := H, parentHeader := P, metadata := MD,
              content := C, blobs := bl }, DStatus.completed, 4, false⟩ := by
    rw [decode_wellformed_nokey freshMessage pre sig f2 f3 f4 f5 bl scheme hpre,
      parseBody_wellformed { freshMessage with idents := pre } pre sig f2 f3 f4 f5 bl false
        H P MD C h2 h3 h4 h5]
  refine ⟨hmain, by rw [hmain]; rfl, ?_⟩
  intro key hk
  rw [decode_wellformed_keyed freshMessage pre sig f2 f3 f4 f5 bl scheme key hpre hk]
  cases hok : (hmacHex (if scheme = "" then "sha256" else scheme) key [f2, f3, f4, f5]
      == sig) with
  | true => simp [hok, parseBody_msg_sigOK]
  | false => simp [hok]

theorem C8_nokey_signature_witness :
    ((∀ f ∈ ([] : List String), f ≠ DELIMITER)
      ∧ Json.parse "null" = some Json.null)
    ∧ (Message.decode freshMessage ([] ++ DELIMITER :: "wrong" :: "null" :: "null" :: "null"
          :: "null" :: []) "sha256" ""
        = ⟨{ freshMessage with
              idents := [], header := Json.null, parentHeader := Json.null,
              metadata := Json.null, content := Json.null, blobs := [] },
            DStatus.completed, 4, false⟩
      ∧ (Message.decode freshMessage ([] ++ DELIMITER :: "wrong" :: "null" :: "null" :: "null"
            :: "null" :: []) "sha256" "").msg.signatureOK = none
      ∧ (∀ key : String, key ≠ "" →
          (Message.decode freshMessage ([] ++ DELIMITER :: "wrong" :: "null" :: "null"
              :: "null" :: "null" :: []) "sha256" key).msg.signatureOK ≠ none)) :=
  ⟨⟨by decide, rfl⟩,
    C8_nokey_signature "sha256" [] "wrong" "null" "null" "null" "null" []
      (by decide) Json.null Json.null Json.null Json.null rfl rfl rfl rfl⟩

theorem getField_obj_cons_eq (k : String) (v : Json) (t : List (String × Json)) :
    Json.getField (Json.obj ((k, v) :: t)) k = some v := by
  simp [Json.getField, List.find?_cons]

theorem getField_obj_cons_ne (q k : String) (v : Json) (t : List (String × Json))
    (h : ¬ q = k) :
    Json.getField (Json.obj ((q, v) :: t)) k = Json.getField (Json.obj t) k := by
  simp [Json.getField, List.find?_cons, h]

/-- Field lookups on the header constructed by `respond`. -/
theorem respHeader_getFields (newId : String) (u s : Option Json) (messageType : String)
    (v : Option Json) :
    (respHeader newId u s messageType v).getField "msg_id" = some (Json.str newId)
    ∧ (respHeader newId u s messageType v).getField "username" = u
    ∧ (respHeader newId u s messageType v).getField "session" = s
    ∧ (respHeader newId u s messageType v).getField "msg_type" = some (Json.str messageType)
    ∧ (respHeader newId u s messageType v).getField "version" = v := by
  rcases u with _ | ju <;> rcases s with _ | js <;> rcases v with _ | jv <;>
    simp [respHeader, optEntry, Json.getField, List.find?_cons]

/-- C6: `respond` sends exactly one response; its idents are the original's,
its parentHeader is the original's full header, its header has the freshly
generated msg_id (distinct from the original's whenever the fresh id
differs, as uuid v4 guarantees), the original's username and session, the
given message type, and a version that is the explicit `protocolVersion`
argument when given (truthy), else the original header's version when
present (truthy), else absent; content and metadata default to empty
objects when not supplied.  Stated for messages whose header is an object
(in JS a `null` header would make `respond` itself throw). -/
theorem C6_respond (self : Message) (kvs : List (String × Json))
    (hobj : self.header = Json.obj kvs) (newId messageType : String)
    (content metadata : Option Json) (protocolVersion : Option String) :
    Message.respondSends self newId messageType content metadata protocolVersion
      = [self.respond newId messageType content metadata protocolVersion]
    ∧ (self.respond newId messageType content metadata protocolVersion).idents = self.idents
    ∧ (self.respond newId messageType content metadata protocolVersion).parentHeader
        = self.header
    ∧ (self.respond newId messageType content metadata protocolVersion).header.getField
        "msg_id" = some (Json.str newId)
    ∧ (self.header.getField "msg_id" ≠ some (Json.str newId) →
        (self.respond newId messageType content metadata protocolVersion).header.getField
          "msg_id" ≠ self.header.getField "msg_id")
    ∧ (self.respond newId messageType content metadata protocolVersion).header.getField
        "username" = self.header.getField "username"
    ∧ (self.respond newId messageType content metadata protocolVersion).header.getField
        "session" = self.header.getField "session"
    ∧ (self.respond newId messageType content metadata protocolVersion).header.getField
        "msg_type" = some (Json.str messageType)
    ∧ (∀ pv : String, protocolVersion = some pv → pv ≠ "" →
        (self.respond newId messageType content metadata protocolVersion).header.getField
          "version" = some (Json.str pv))
    ∧ (protocolVersion = none ∨ protocolVersion = some "" →
        (self.respond newId messageType content metadata protocolVersion).header.getField
          "version"
          = (if optTruthy (self.header.getField "version") then
              self.header.getField "version" else none))
    ∧ (content = none →
        (self.respond newId messageType content metadata protocolVersion).content
          = Json.obj [])
    ∧ (metadata = none →
        (self.respond newId messageType content metadata protocolVersion).metadata
          = Json.obj []) := by
  have hh : (self.respond newId messageType content metadata protocolVersion).header =
      respHeader newId (self.header.getField "username") (self.header.getField "session")
        messageType
        (match protocolVersion with
         | some pv =>
           if pv ≠ "" then some (Json.str pv)
           else
             if self.header.truthy && optTruthy (self.header.getField "version") then
               self.header.getField "version"
             else none
         | none =>
           if self.header.truthy && optTruthy (self.header.getField "version") then
             self.header.getField "version"
           else none) := rfl
  refine ⟨rfl, rfl, rfl, ?_, ?_, ?_, ?_, ?_, ?_, ?_, ?_, ?_⟩
  · rw [hh]
    exact (respHeader_getFields _ _ _ _ _).1
  · intro hne heq
    rw [hh, (respHeader_getFields _ _ _ _ _).1] at heq
    exact hne heq.symm
  · rw [hh]
    exact (respHeader_getFields _ _ _ _ _).2.1
  · rw [hh]
    exact (respHeader_getFields _ _ _ _ _).2.2.1
  · rw [hh]
    exact (respHeader_getFields _ _ _ _ _).2.2.2.1
  · intro pv hpv hne
    subst hpv
    rw [hh, (respHeader_getFields _ _ _ _ _).2.2.2.2]
    simp [hne]
  · intro hd
    rw [hh, (respHeader_getFields _ _ _ _ _).2.2.2.2]
    rcases hd with rfl | rfl <;> simp [hobj, Json.truthy]
  · intro hc
    subst hc
    rfl
  · intro hmd
    subst hmd
    rfl

theorem C6_respond_witness :
    c6self.header = Json.obj c6header
    ∧ (Message.respondSends c6self "b" "execute_reply" none none none
        = [c6self.respond "b" "execute_reply" none none none]
      ∧ (c6self.respond "b" "execute_reply" none none none).idents = c6self.idents
      ∧ (c6self.respond "b" "execute_reply" none none none).parentHeader = c6self.header
      ∧ (c6self.respond "b" "execute_reply" none none none).header.getField "msg_id"
          = some (Json.str "b")
      ∧ (c6self.header.getField "msg_id" ≠ some (Json.str "b") →
          (c6self.respond "b" "execute_reply" none none none).header.getField "msg_id"
            ≠ c6self.header.getField "msg_id")
      ∧ (c6self.respond "b" "execute_reply" none none none).header.getField "username"
          = c6self.header.getField "username"
      ∧ (c6self.respond "b" "execute_reply" none none none).header.getField "session"
          = c6self.header.getField "session"
      ∧ (c6self.respond "b" "execute_reply" none none none).header.getField "msg_type"
          = some (Json.str "execute_reply")
      ∧ (∀ pv : String, (none : Option String) = some pv → pv ≠ "" →
          (c6self.respond "b" "execute_reply" none none none).header.getField "version"
            = some (Json.str pv))
      ∧ ((none : Option String) = none ∨ (none : Option String) = some "" →
          (c6self.respond "b" "execute_reply" none none none).header.getField "version"
            = (if optTruthy (c6self.header.getField "version") then
                c6self.header.getField "version" else none))
      ∧ ((none : Option Json) = none →
          (c6self.respond "b" "execute_reply" none none none).content = Json.obj [])
      ∧ ((none : Option Json) = none →
          (c6self.respond "b" "execute_reply" none none none).metadata = Json.obj [])) :=
  ⟨rfl, C6_respond c6self c6header rfl "b" "execute_reply" none none none⟩
